import Mathlib

/-!
Verification of the k8s-overcommit-operator reconcilers and their
comparison kernel, as a shallow embedding of the Go source.

Conventions of the embedding:

* Go slices that the source distinguishes from `nil` (tolerations in
  `TolerationsEqual`, string maps in `mapsEqual`) are modelled as
  `Option (List _)`; `none` is the Go `nil`.
* A Go `map[string]V` built by iterating a slice is modelled by `goMap`,
  an association list in which a later element with an equal key
  replaces the earlier one (last write wins), matching Go map writes.
  Real Go maps never hold a duplicate key, so map-typed inputs carry the
  representation invariant `NodupKeys` below where a theorem needs it.
* Iteration over a Go map is a conjunction over all entries, which is
  independent of Go's randomised map iteration order.
* Kubernetes object annotation maps are modelled under field names that
  end in `Annots`.
-/

namespace Overcommit

/-- Kubernetes toleration; fields used by `createTolerationKey` in
`internal/utils/comparison.go`. -/
structure Toleration where
  key : String
  operator : String
  value : String
  effect : String
  tolerationSeconds : Option Int
deriving DecidableEq, Repr

/-- Kubernetes env var; fields used by `envVarsEqual`. -/
structure EnvVar where
  name : String
  value : String
deriving DecidableEq, Repr

/-- Go intstr.IntOrString, the type of a service target port. -/
inductive IntOrString where
  | int (i : Int)
  | str (s : String)
deriving DecidableEq, Repr

/-- Kubernetes service port; fields used by `portsEqual`. -/
structure ServicePort where
  name : String
  port : Int
  targetPort : IntOrString
  protocol : String
deriving DecidableEq, Repr

/-- Insert into an association list keyed by `key`: overwrite the entry
with an equal key if present, append otherwise.  This is one Go map
write `m[key x] = x`. -/
def insertKeyed {α : Type} (key : α → String) (m : List α) (x : α) : List α :=
  if m.any (fun y => key y == key x) then
    m.map (fun y => if key y == key x then x else y)
  else
    m ++ [x]

/-- Build the Go map produced by ranging over slice `l` and writing each
element under `key` (`for _, v := range l { m[key(v)] = v }`). -/
def goMap {α : Type} (key : α → String) (l : List α) : List α :=
  l.foldl (insertKeyed key) []

/-- Check, for every element of `ma`, that `mb` holds an entry with an
equal key satisfying `eqv` (the loop body shared by the Go comparison
helpers: missing key or failing comparison returns false). -/
def keyedAll {α : Type} (key : α → String) (eqv : α → α → Bool)
    (ma mb : List α) : Bool :=
  ma.all fun x =>
    match mb.find? (fun y => key y == key x) with
    | some y => eqv x y
    | none => false

/-- Embeds `envVarsEqual` (same body in
`internal/controller/overcommitclass/utils.go`,
`internal/controller/overcommit/utils.go` and the unnamed controller
file): length check, then name-keyed maps compared one-sidedly by
value. -/
def envVarsEqual (a b : List EnvVar) : Bool :=
  a.length == b.length &&
    keyedAll (fun e => e.name) (fun x y => x.value == y.value)
      (goMap (fun e => e.name) a) (goMap (fun e => e.name) b)

/-- Embeds `mapsEqual`: nil handling, length check, then one-sided
key/value containment.  `none` is a nil Go map. -/
def mapsEqual : Option (List (String × String)) → Option (List (String × String)) → Bool
  | none, none => true
  | none, some _ => false
  | some _, none => false
  | some a, some b =>
    a.length == b.length &&
      keyedAll (fun p => p.1) (fun p q => p.2 == q.2) a b

/-- Read of a Go string map, `v, ok := m[k]`: the stored value when the
key is present. -/
def strMapLookup (m : List (String × String)) (k : String) : Option String :=
  (m.find? (fun p => p.1 == k)).map (fun p => p.2)

/-- Embeds `portsEqual`: length check, then name-keyed maps compared on
the (port, targetPort, protocol) triple. -/
def portsEqual (a b : List ServicePort) : Bool :=
  a.length == b.length &&
    keyedAll (fun p => p.name)
      (fun p q => p.port == q.port && p.targetPort == q.targetPort &&
        p.protocol == q.protocol)
      (goMap (fun p => p.name) a) (goMap (fun p => p.name) b)

/-- Embeds `slicesEqual`: length check, then one-sided membership of the
deduplicated first slice in the deduplicated second. -/
def slicesEqual (a b : List String) : Bool :=
  a.length == b.length &&
    keyedAll (fun s => s) (fun _ _ => true)
      (goMap (fun s => s) a) (goMap (fun s => s) b)

/-- Embeds `createTolerationKey` in `internal/utils/comparison.go`:
`strings.Join` of key, operator, value, effect and a nil/non-nil marker
for tolerationSeconds, separated by `"-"`. -/
def createTolerationKey (tol : Toleration) : String :=
  tol.key ++ "-" ++ tol.operator ++ "-" ++ tol.value ++ "-" ++ tol.effect ++ "-" ++
    (if tol.tolerationSeconds.isSome then "seconds-not-nil" else "seconds-nil")

/-- Embeds `TolerationsEqual` in `internal/utils/comparison.go`: nil
handling, length check, a key-indexed map built from `a`, then a pass
over `b` requiring each key to exist in the map. -/
def TolerationsEqual : Option (List Toleration) → Option (List Toleration) → Bool
  | none, none => true
  | none, some _ => false
  | some _, none => false
  | some a, some b =>
    a.length == b.length &&
      keyedAll createTolerationKey (fun _ _ => true)
        b (goMap createTolerationKey a)

/-- Representation invariant of a value that the Go side obtained as an
actual `map`: no two entries share a key. -/
def NodupKeys {α : Type} (key : α → String) (l : List α) : Prop :=
  (l.map key).Nodup

/-- Kubernetes API error as discriminated by the reconcilers
(`errors.IsConflict`, `apierrors.IsNotFound`); every other error is
`other` with its message. -/
inductive GoError where
  | conflict
  | notFound
  | other (msg : String)
deriving DecidableEq, Repr

/-- Embeds `errors.IsConflict`. -/
def isConflict : GoError → Bool
  | .conflict => true
  | _ => false

/-- Embeds `client.IgnoreNotFound`. -/
def ignoreNotFound : Option GoError → Option GoError
  | some .notFound => none
  | e => e

/-- Embeds `ctrl.Result`; `requeueAfterMs = 0` is the empty result. -/
structure CtrlResult where
  requeueAfterMs : Nat
deriving DecidableEq, Repr

/-! ### The safe status writer (`updateOvercommitStatusSafely`) -/

/-- Final outcome of the safe status writer: Go `nil` error, a returned
API error, or the unreachable post-loop `fmt.Errorf` fallthrough. -/
inductive SafeResult where
  | ok
  | err (e : GoError)
  | exhausted
deriving DecidableEq, Repr

/-- Observable trace of one run of the safe status writer: result,
number of fetches of the fresh object, number of status write attempts,
and the sleeps performed, in milliseconds. -/
structure SafeRun where
  result : SafeResult
  fetches : Nat
  updates : Nat
  sleepsMs : List Nat
deriving DecidableEq, Repr

/-- Embeds `maxRetries := 5` in `updateOvercommitStatusSafely`. -/
def maxRetries : Nat := 5

/-- Embeds the retry loop of `updateOvercommitStatusSafely`
(`internal/controller/overcommit/utils.go`).  `fetch k` is the error of
the `r.Get` on attempt `k` (`none` means success), `upd k` the error of
`updateOvercommitStatus` on attempt `k`.  The `fuel` argument counts the
remaining loop iterations, `maxRetries - attempt`; the loop body is a
line-by-line translation. -/
def statusLoop (fetch upd : Nat → Option GoError) (attempt : Nat) : Nat → SafeRun
  | 0 => ⟨.exhausted, 0, 0, []⟩
  | fuel + 1 =>
    match fetch attempt with
    | some e =>
      match ignoreNotFound (some e) with
      | some e2 => ⟨.err e2, 1, 0, []⟩
      | none => ⟨.ok, 1, 0, []⟩
    | none =>
      match upd attempt with
      | none => ⟨.ok, 1, 1, []⟩
      | some e =>
        if attempt == maxRetries - 1 then ⟨.err e, 1, 1, []⟩
        else if isConflict e then
          let rest := statusLoop fetch upd (attempt + 1) fuel
          ⟨rest.result, rest.fetches + 1, rest.updates + 1,
            (2 ^ attempt * 50) :: rest.sleepsMs⟩
        else ⟨.err e, 1, 1, []⟩

/-- Embeds `updateOvercommitStatusSafely`: run the loop from attempt 0
with `maxRetries` iterations available. -/
def updateOvercommitStatusSafely (fetch upd : Nat → Option GoError) : SafeRun :=
  statusLoop fetch upd 0 maxRetries

/-! ### The singleton Overcommit reconciler -/

/-- Embeds `legacyFinalizers` in the singleton `Reconcile`. -/
def legacyFinalizers : List String := ["overcommit.finalizer", "webhook.finalizer"]

/-- Effect on the finalizer list of the migration loop: each legacy
finalizer is removed (`controllerutil.RemoveFinalizer` filters out every
occurrence). -/
def stripLegacy (fins : List String) : List String :=
  fins.filter (fun f => !(legacyFinalizers.contains f))

/-- Environment of one tick of the singleton reconciler: the outcome of
every cluster interaction it can perform, in program order.  `none`
means the call succeeded. -/
structure OvercommitTick where
  labelErr : Option GoError
  getErr : Option GoError
  finalizers : List String
  finalizerUpdateErr : Option GoError
  issuerIsNil : Bool
  issuerErr : Option GoError
  classCertErr : Option GoError
  classDeployErr : Option GoError
  classServiceErr : Option GoError
  classWebhookErr : Option GoError
  podCertErr : Option GoError
  podDeployErr : Option GoError
  podServiceErr : Option GoError
  podWebhookErr : Option GoError
  controllerDeployErr : Option GoError
  statusErr : Option GoError
deriving DecidableEq, Repr

/-- Observable outcome of one tick of the singleton reconciler. -/
structure OvercommitOutcome where
  result : CtrlResult
  error : Option GoError
  finalizersAfter : List String
  persistedFinalizers : Bool
  upsertsRun : Nat
  statusUpdateRun : Bool
deriving DecidableEq, Repr

/-- Run a sequence of `CreateOrUpdate` calls: each entry is the call's
error and whether a conflict from it is swallowed (true only for the pod
mutating webhook configuration).  Returns how many calls ran and the
first propagated error. -/
def runUpserts : List (Option GoError × Bool) → Nat × Option GoError
  | [] => (0, none)
  | (oe, swallowConflict) :: rest =>
    match oe with
    | none =>
      let r := runUpserts rest
      (r.1 + 1, r.2)
    | some e =>
      if swallowConflict && isConflict e then
        let r := runUpserts rest
        (r.1 + 1, r.2)
      else (1, some e)

/-- The ten `CreateOrUpdate` calls of the singleton reconciler in
program order; only the pod webhook configuration swallows conflicts. -/
def overcommitUpserts (t : OvercommitTick) : List (Option GoError × Bool) :=
  [(t.issuerErr, false), (t.classCertErr, false), (t.classDeployErr, false),
   (t.classServiceErr, false), (t.classWebhookErr, false),
   (t.podCertErr, false), (t.podDeployErr, false), (t.podServiceErr, false),
   (t.podWebhookErr, true), (t.controllerDeployErr, false)]

/-- Embeds `OvercommitReconciler.Reconcile` (the unnamed controller
file): label fetch, singleton fetch with not-found no-op, legacy
finalizer migration with 1 s requeue, nil-issuer guard, the ten upserts,
then the status update whose error is logged and dropped, and the 10 s
periodic requeue. -/
def OvercommitReconcile (t : OvercommitTick) : OvercommitOutcome :=
  match t.labelErr with
  | some e => ⟨⟨0⟩, some e, t.finalizers, false, 0, false⟩
  | none =>
    match t.getErr with
    | some e =>
      match ignoreNotFound (some e) with
      | some e2 => ⟨⟨0⟩, some e2, t.finalizers, false, 0, false⟩
      | none => ⟨⟨0⟩, none, t.finalizers, false, 0, false⟩
    | none =>
      let finalizerRemoved := legacyFinalizers.any (fun lf => t.finalizers.contains lf)
      let fins := if finalizerRemoved then stripLegacy t.finalizers else t.finalizers
      if finalizerRemoved then
        match t.finalizerUpdateErr with
        | some e => ⟨⟨0⟩, some e, fins, false, 0, false⟩
        | none => ⟨⟨1000⟩, none, fins, true, 0, false⟩
      else if t.issuerIsNil then
        ⟨⟨0⟩, some (.other "generated issuer is nil"), fins, false, 0, false⟩
      else
        let ups := runUpserts (overcommitUpserts t)
        match ups.2 with
        | some e => ⟨⟨0⟩, some e, fins, false, ups.1, false⟩
        | none => ⟨⟨10000⟩, none, fins, false, ups.1, true⟩

/-! ### The per-class OvercommitClass reconciler -/

/-- Environment of one tick of the class reconciler, in program order.
`none` means the call succeeded.  `metricsErr` is the value returned by
`getTotalClasses`. -/
structure ClassTick where
  labelErr : Option GoError
  getErr : Option GoError
  deletionTimestampZero : Bool
  cleanupErr : Option GoError
  finalizerRemoveUpdateErr : Option GoError
  hasFinalizer : Bool
  addFinalizerUpdateErr : Option GoError
  getOvercommitErr : Option GoError
  ownerCorrect : Bool
  setOwnerRefErr : Option GoError
  ownerUpdateErr : Option GoError
  deployErr : Option GoError
  serviceErr : Option GoError
  certErr : Option GoError
  webhookErr : Option GoError
  metricsErr : Option GoError
  statusErr : Option GoError
deriving DecidableEq, Repr

/-- Observable outcome of one tick of the class reconciler. -/
structure ClassOutcome where
  result : CtrlResult
  error : Option GoError
  upsertsRun : Nat
  statusUpdateRun : Bool
deriving DecidableEq, Repr

/-- Embeds `OvercommitClassReconciler.Reconcile`
(`internal/controller/overcommitclass/overcommitclass_controller.go`).
On the metrics branch the code returns the `err` variable, which on the
only reachable path is the `nil` left by the preceding successful
`CreateOrUpdate`, hence `none` here.  A failing `updateResourcesStatus`
is returned as the tick's error. -/
def OvercommitClassReconcile (t : ClassTick) : ClassOutcome :=
  match t.labelErr with
  | some e => ⟨⟨0⟩, some e, 0, false⟩
  | none =>
    match t.getErr with
    | some e =>
      match ignoreNotFound (some e) with
      | some e2 => ⟨⟨0⟩, some e2, 0, false⟩
      | none => ⟨⟨0⟩, none, 0, false⟩
    | none =>
      if !t.deletionTimestampZero then
        match t.cleanupErr with
        | some e => ⟨⟨0⟩, some e, 0, false⟩
        | none =>
          match t.finalizerRemoveUpdateErr with
          | some e => ⟨⟨0⟩, some e, 0, false⟩
          | none => ⟨⟨0⟩, none, 0, false⟩
      else if !t.hasFinalizer then
        match t.addFinalizerUpdateErr with
        | some e => ⟨⟨0⟩, some e, 0, false⟩
        | none => ⟨⟨0⟩, none, 0, false⟩
      else
        match t.getOvercommitErr with
        | some e => ⟨⟨0⟩, some e, 0, false⟩
        | none =>
          if !t.ownerCorrect then
            match t.setOwnerRefErr with
            | some e => ⟨⟨0⟩, some e, 0, false⟩
            | none =>
              match t.ownerUpdateErr with
              | some e => ⟨⟨0⟩, some e, 0, false⟩
              | none => ⟨⟨0⟩, none, 0, false⟩
          else
            let ups := runUpserts [(t.deployErr, false), (t.serviceErr, false),
              (t.certErr, false), (t.webhookErr, false)]
            match ups.2 with
            | some e => ⟨⟨0⟩, some e, ups.1, false⟩
            | none =>
              if t.metricsErr.isSome then ⟨⟨0⟩, none, ups.1, false⟩
              else
                match t.statusErr with
                | some e => ⟨⟨0⟩, some e, ups.1, true⟩
                | none => ⟨⟨10000⟩, none, ups.1, true⟩

/-! ### The CreateOrUpdate mutate callbacks of the singleton reconciler -/

/-- Go `map[string]string` field of an object: `none` is nil. -/
def GoStrMap : Type := Option (List (String × String))

instance : DecidableEq GoStrMap := by
  unfold GoStrMap
  infer_instance

/-- Owned part of a deployment spec touched by the deployment mutate
callbacks (image and env of container 0, pod-template annotation map
`templateAnnots`, labels, node selector, tolerations). -/
structure DeploySpec where
  image : String
  env : List EnvVar
  templateAnnots : GoStrMap
  templateLabels : GoStrMap
  nodeSelector : GoStrMap
  tolerations : Option (List Toleration)
deriving DecidableEq

/-- A deployment object as the mutate callback sees it. -/
structure DeployObj where
  creationTimestampIsZero : Bool
  spec : DeploySpec
  metaLabels : GoStrMap
  metaAnnots : GoStrMap
  ownerRefSet : Bool
deriving DecidableEq

/-- Embeds the deployment mutate callback used for the class-validator
deployment, the pod-validator deployment and the class sub-controller
deployment in the singleton `Reconcile`: install everything on the
create path, otherwise patch each owned attribute whose comparison
fails, and set the controller reference only when something changed. -/
def deployMutate (updated cur : DeployObj) : DeployObj :=
  if cur.creationTimestampIsZero then
    { cur with
      spec := updated.spec
      metaLabels := updated.metaLabels
      metaAnnots := updated.metaAnnots
      ownerRefSet := true }
  else
    let u1 := !(updated.spec.image == cur.spec.image)
    let c1 := if u1 then
      { cur with spec := { cur.spec with image := updated.spec.image } } else cur
    let u2 := u1 || !(envVarsEqual updated.spec.env c1.spec.env)
    let c2 := if !(envVarsEqual updated.spec.env c1.spec.env) then
      { c1 with spec := { c1.spec with env := updated.spec.env } } else c1
    let u3 := u2 || !(mapsEqual updated.spec.templateAnnots c2.spec.templateAnnots)
    let c3 := if !(mapsEqual updated.spec.templateAnnots c2.spec.templateAnnots) then
      { c2 with spec := { c2.spec with templateAnnots := updated.spec.templateAnnots } } else c2
    let u4 := u3 || !(mapsEqual updated.spec.templateLabels c3.spec.templateLabels)
    let c4 := if !(mapsEqual updated.spec.templateLabels c3.spec.templateLabels) then
      { c3 with spec := { c3.spec with templateLabels := updated.spec.templateLabels } } else c3
    let u5 := u4 || !(mapsEqual updated.spec.nodeSelector c4.spec.nodeSelector)
    let c5 := if !(mapsEqual updated.spec.nodeSelector c4.spec.nodeSelector) then
      { c4 with spec := { c4.spec with nodeSelector := updated.spec.nodeSelector } } else c4
    let u6 := u5 || !(TolerationsEqual updated.spec.tolerations c5.spec.tolerations)
    let c6 := if !(TolerationsEqual updated.spec.tolerations c5.spec.tolerations) then
      { c5 with spec := { c5.spec with tolerations := updated.spec.tolerations } } else c5
    if u6 then { c6 with ownerRefSet := true } else c6

/-- Owned part of a service spec (selector, ports, type). -/
structure ServiceSpec where
  selector : GoStrMap
  ports : List ServicePort
  type : String
deriving DecidableEq

/-- A service object as the mutate callback sees it. -/
structure ServiceObj where
  creationTimestampIsZero : Bool
  spec : ServiceSpec
  ownerRefSet : Bool
deriving DecidableEq

/-- Embeds the service mutate callbacks of the singleton `Reconcile`
(class-validator service and pod-validator service): the spec is set and
the controller reference taken only when the creation timestamp is zero;
an existing service is returned untouched. -/
def serviceMutate (updated cur : ServiceObj) : ServiceObj :=
  if cur.creationTimestampIsZero then
    { cur with spec := updated.spec, ownerRefSet := true }
  else cur

/-- Owned part of a certificate spec. -/
structure CertSpec where
  dnsNames : List String
  issuerRefName : String
  issuerRefKind : String
  secretName : String
deriving DecidableEq

/-- A certificate object as the mutate callback sees it. -/
structure CertObj where
  creationTimestampIsZero : Bool
  spec : CertSpec
  ownerRefSet : Bool
deriving DecidableEq

/-- Embeds the certificate mutate callbacks of the singleton
`Reconcile`: spec set and owner reference taken only on the create
path. -/
def certMutate (updated cur : CertObj) : CertObj :=
  if cur.creationTimestampIsZero then
    { cur with spec := updated.spec, ownerRefSet := true }
  else cur

/-- A webhook configuration object as the mutate callback sees it; the
webhook entries are abstracted as opaque payloads. -/
structure WebhookConfigObj where
  creationTimestampIsZero : Bool
  annots : GoStrMap
  webhooks : List String
  ownerRefSet : Bool
deriving DecidableEq

/-- Embeds the OvercommitClass validating webhook configuration mutate
callback of the singleton `Reconcile`: annotations, webhooks and owner
reference set only on the create path. -/
def classWebhookMutate (updated cur : WebhookConfigObj) : WebhookConfigObj :=
  if cur.creationTimestampIsZero then
    { cur with
      annots := updated.annots
      webhooks := updated.webhooks
      ownerRefSet := true }
  else cur

/-- Embeds the pod validating webhook configuration mutate callback of
the singleton `Reconcile`: webhooks and owner reference set only on the
create path. -/
def podWebhookMutate (updated cur : WebhookConfigObj) : WebhookConfigObj :=
  if cur.creationTimestampIsZero then
    { cur with webhooks := updated.webhooks, ownerRefSet := true }
  else cur

/-- An issuer object as its mutate callback sees it. -/
structure IssuerObj where
  creationTimestampIsZero : Bool
  ownerRefSet : Bool
deriving DecidableEq

/-- Embeds the issuer mutate callback of the singleton `Reconcile`: the
controller reference is set only on the create path (the created object
itself is the templated desired shape). -/
def issuerMutate (cur : IssuerObj) : IssuerObj :=
  if cur.creationTimestampIsZero then { cur with ownerRefSet := true } else cur

end Overcommit

-- sanity checks on concrete values (mirroring comparison_test.go cases)
example : Overcommit.TolerationsEqual none none = true := by decide
example : Overcommit.TolerationsEqual none (some []) = false := by decide
example :
    Overcommit.TolerationsEqual
      (some [⟨"node.kubernetes.io/unreachable", "Exists", "", "NoExecute", none⟩,
             ⟨"node.kubernetes.io/not-ready", "Exists", "", "NoExecute", none⟩])
      (some [⟨"node.kubernetes.io/not-ready", "Exists", "", "NoExecute", none⟩,
             ⟨"node.kubernetes.io/unreachable", "Exists", "", "NoExecute", none⟩]) = true := by
  decide
example : Overcommit.slicesEqual ["a", "a"] ["a", "b"] = true := by decide
example : Overcommit.slicesEqual ["a", "b"] ["a", "a"] = false := by decide
example : Overcommit.mapsEqual (some []) none = false := by decide

namespace Overcommit

section ComparisonLemmas

variable {α : Type} (key : α → String)

theorem map_key_insertKeyed_mem (m : List α) (x : α)
    (h : m.any (fun y => key y == key x) = true) :
    (insertKeyed key m x).map key = m.map key := by
  unfold insertKeyed
  simp only [h, if_true]
  rw [List.map_map]
  apply List.map_congr_left
  intro a _
  simp only [Function.comp]
  by_cases hk : (key a == key x) = true
  · rw [if_pos hk]
    exact (beq_iff_eq.mp hk).symm
  · rw [if_neg hk]

theorem map_key_insertKeyed_not_mem (m : List α) (x : α)
    (h : m.any (fun y => key y == key x) = false) :
    (insertKeyed key m x).map key = m.map key ++ [key x] := by
  unfold insertKeyed
  simp [h]

theorem nodup_map_key_foldl (l : List α) :
    ∀ acc : List α, (acc.map key).Nodup →
      ((l.foldl (insertKeyed key) acc).map key).Nodup := by
  induction l with
  | nil => intro acc h; simpa using h
  | cons x xs ih =>
    intro acc h
    rw [List.foldl_cons]
    apply ih
    cases hmem : acc.any (fun y => key y == key x) with
    | true => rw [map_key_insertKeyed_mem key acc x hmem]; exact h
    | false =>
      rw [map_key_insertKeyed_not_mem key acc x hmem]
      rw [List.nodup_append]
      refine ⟨h, List.nodup_singleton _, ?_⟩
      intro c hc hc'
      have hcx : c = key x := by simpa using hc'
      obtain ⟨y, hy, hky⟩ := List.mem_map.mp hc
      have : (key y == key x) = true := beq_iff_eq.mpr (hky.trans hcx)
      have hfalse := List.any_eq_false.mp hmem y hy
      exact hfalse this

/-- The Go map built by `goMap` never holds two entries with one key. -/
theorem nodupKeys_goMap (l : List α) : NodupKeys key (goMap key l) :=
  nodup_map_key_foldl key l [] (by simp)

theorem key_mem_map_insertKeyed (m : List α) (x : α) {c : String}
    (h : c ∈ m.map key) : c ∈ (insertKeyed key m x).map key := by
  cases hmem : m.any (fun y => key y == key x) with
  | true => rw [map_key_insertKeyed_mem key m x hmem]; exact h
  | false => rw [map_key_insertKeyed_not_mem key m x hmem]; exact List.mem_append_left _ h

theorem key_self_mem_map_insertKeyed (m : List α) (x : α) :
    key x ∈ (insertKeyed key m x).map key := by
  cases hmem : m.any (fun y => key y == key x) with
  | true =>
    rw [map_key_insertKeyed_mem key m x hmem]
    obtain ⟨y, hy, hky⟩ := List.any_eq_true.mp hmem
    exact (beq_iff_eq.mp hky) ▸ List.mem_map_of_mem key hy
  | false =>
    rw [map_key_insertKeyed_not_mem key m x hmem]
    simp

theorem key_mem_goMap_aux (l : List α) :
    ∀ (acc : List α) (x : α), (key x ∈ acc.map key ∨ x ∈ l) →
      key x ∈ (l.foldl (insertKeyed key) acc).map key := by
  induction l with
  | nil =>
    intro acc x h
    rcases h with h | h
    · simpa using h
    · cases h
  | cons z zs ih =>
    intro acc x h
    rw [List.foldl_cons]
    rcases h with h | h
    · exact ih _ x (Or.inl (key_mem_map_insertKeyed key acc z h))
    · rcases List.mem_cons.mp h with rfl | h'
      · exact ih _ x (Or.inl (key_self_mem_map_insertKeyed key acc x))
      · exact ih _ x (Or.inr h')

/-- Every element of the slice leaves its key in the built Go map. -/
theorem key_mem_goMap {l : List α} {x : α} (hx : x ∈ l) :
    key x ∈ (goMap key l).map key :=
  key_mem_goMap_aux key l [] x (Or.inr hx)

theorem foldl_insertKeyed_of_nodup (l : List α) :
    ∀ acc : List α, ((acc ++ l).map key).Nodup →
      l.foldl (insertKeyed key) acc = acc ++ l := by
  induction l with
  | nil => intro acc _; simp
  | cons x xs ih =>
    intro acc h
    have hmap := h
    simp only [List.map_append, List.map_cons, List.nodup_append, List.nodup_cons] at hmap
    obtain ⟨h1, ⟨hx, h2⟩, hdisj⟩ := hmap
    have hany : acc.any (fun y => key y == key x) = false := by
      rw [List.any_eq_false]
      intro y hy hbeq
      exact hdisj (List.mem_map_of_mem key hy)
        (by rw [beq_iff_eq.mp hbeq]; exact List.mem_cons_self _ _)
    rw [List.foldl_cons]
    have hstep : insertKeyed key acc x = acc ++ [x] := by
      unfold insertKeyed
      simp [hany]
    rw [hstep, ih (acc ++ [x]) (by simpa using h)]
    simp

/-- A slice with pairwise-distinct keys is its own Go map. -/
theorem goMap_eq_self {l : List α} (h : NodupKeys key l) : goMap key l = l :=
  foldl_insertKeyed_of_nodup key l [] (by simpa using h)

theorem find?_key_eq_self {m : List α} (hm : (m.map key).Nodup) {y : α} (hy : y ∈ m) :
    m.find? (fun z => key z == key y) = some y := by
  induction m with
  | nil => cases hy
  | cons z zs ih =>
    simp only [List.map_cons, List.nodup_cons] at hm
    obtain ⟨hz, hzs⟩ := hm
    rcases List.mem_cons.mp hy with rfl | hy'
    · exact List.find?_cons_of_pos _ (beq_self_eq_true _)
    · have hne : ¬((key z == key y) = true) := by
        intro hcon
        exact hz ((beq_iff_eq.mp hcon) ▸ List.mem_map_of_mem key hy')
      have hstep : List.find? (fun w => key w == key y) (z :: zs) =
          List.find? (fun w => key w == key y) zs :=
        List.find?_cons_of_neg zs hne
      rw [hstep]
      exact ih hzs hy'

theorem subset_of_nodup_of_subset_of_len {β : Type} {l1 l2 : List β}
    (h1 : l1.Nodup) (hsub : l1 ⊆ l2) (hlen : l2.length ≤ l1.length) : l2 ⊆ l1 :=
  ((List.subperm_of_subset h1 hsub).perm_of_length_le hlen).symm.subset

theorem keyedAll_self (eqv : α → α → Bool) {m : List α}
    (hm : (m.map key).Nodup) (hrefl : ∀ x ∈ m, eqv x x = true) :
    keyedAll key eqv m m = true := by
  rw [keyedAll, List.all_eq_true]
  intro x hx
  rw [find?_key_eq_self key hm hx]
  exact hrefl x hx

theorem keyedAll_true_eq (b m : List α) :
    keyedAll key (fun _ _ => true) b m = true ↔ ∀ x ∈ b, key x ∈ m.map key := by
  rw [keyedAll, List.all_eq_true]
  constructor
  · intro H x hx
    have hx' := H x hx
    cases hf : m.find? (fun z => key z == key x) with
    | none =>
      rw [hf] at hx'
      exact absurd hx' (by simp)
    | some z =>
      have hz := List.find?_some hf
      have hzm : z ∈ m := List.mem_of_find?_eq_some hf
      exact (beq_iff_eq.mp hz) ▸ List.mem_map_of_mem key hzm
  · intro H x hx
    obtain ⟨z, hzm, hkz⟩ := List.mem_map.mp (H x hx)
    have hsome : (m.find? (fun z => key z == key x)).isSome = true :=
      List.find?_isSome.mpr ⟨z, hzm, beq_iff_eq.mpr hkz⟩
    cases hf : m.find? (fun z => key z == key x) with
    | none =>
      rw [hf] at hsome
      exact absurd hsome (by simp)
    | some z' => rfl

theorem keyedAll_flip (eqv : α → α → Bool)
    (hsymm : ∀ x y, eqv x y = true → eqv y x = true) {a b : List α}
    (hka : (a.map key).Nodup) (hkb : (b.map key).Nodup)
    (hlen : a.length = b.length) (h : keyedAll key eqv a b = true) :
    keyedAll key eqv b a = true := by
  rw [keyedAll, List.all_eq_true] at h ⊢
  have hsub : a.map key ⊆ b.map key := by
    intro c hc
    obtain ⟨x, hx, rfl⟩ := List.mem_map.mp hc
    have hx' := h x hx
    cases hf : b.find? (fun z => key z == key x) with
    | none =>
      rw [hf] at hx'
      exact absurd hx' (by simp)
    | some z =>
      have hz := List.find?_some hf
      have hzm : z ∈ b := List.mem_of_find?_eq_some hf
      exact (beq_iff_eq.mp hz) ▸ List.mem_map_of_mem key hzm
  have hsub2 : b.map key ⊆ a.map key :=
    subset_of_nodup_of_subset_of_len hka hsub (by simp [hlen])
  intro y hy
  have hky : key y ∈ a.map key := hsub2 (List.mem_map_of_mem key hy)
  obtain ⟨x, hxa, hkxy⟩ := List.mem_map.mp hky
  have hfa : a.find? (fun z => key z == key y) = some x := by
    have hself := find?_key_eq_self key hka hxa
    simpa [hkxy] using hself
  have hfb : b.find? (fun z => key z == key x) = some y := by
    have hself := find?_key_eq_self key hkb hy
    simpa [hkxy] using hself
  have hx' := h x hxa
  rw [hfb] at hx'
  rw [hfa]
  exact hsymm x y hx'

end ComparisonLemmas

end Overcommit

namespace Overcommit

section ComparisonFacts

theorem keyedAll_keys_subset {α : Type} (key : α → String) (eqv : α → α → Bool)
    {a b : List α} (h : keyedAll key eqv a b = true) : a.map key ⊆ b.map key := by
  rw [keyedAll, List.all_eq_true] at h
  intro c hc
  obtain ⟨x, hx, rfl⟩ := List.mem_map.mp hc
  have hx' := h x hx
  cases hf : b.find? (fun z => key z == key x) with
  | none =>
    rw [hf] at hx'
    exact absurd hx' (by simp)
  | some z =>
    have hz := List.find?_some hf
    have hzm : z ∈ b := List.mem_of_find?_eq_some hf
    exact (beq_iff_eq.mp hz) ▸ List.mem_map_of_mem key hzm

theorem lenKeyedAll_symm {α : Type} (key : α → String) (eqv : α → α → Bool)
    (hsymm : ∀ x y, eqv x y = true → eqv y x = true) (a b : List α)
    (ha : (a.map key).Nodup) (hb : (b.map key).Nodup) :
    (a.length == b.length && keyedAll key eqv a b) =
      (b.length == a.length && keyedAll key eqv b a) := by
  by_cases hlen : a.length = b.length
  · rw [beq_iff_eq.mpr hlen, beq_iff_eq.mpr hlen.symm]
    simp only [Bool.true_and]
    cases hab : keyedAll key eqv a b with
    | true => exact (keyedAll_flip key eqv hsymm ha hb hlen hab).symm
    | false =>
      cases hba : keyedAll key eqv b a with
      | true =>
        have hflip := keyedAll_flip key eqv hsymm hb ha hlen.symm hba
        rw [hflip] at hab
        exact Bool.noConfusion hab
      | false => rfl
  · rw [beq_eq_false_iff_ne.mpr hlen, beq_eq_false_iff_ne.mpr (Ne.symm hlen)]
    simp

theorem tolerationsEqual_refl (oa : Option (List Toleration)) :
    TolerationsEqual oa oa = true := by
  cases oa with
  | none => rfl
  | some a =>
    simp only [TolerationsEqual, Bool.and_eq_true]
    refine ⟨by simp, ?_⟩
    rw [keyedAll_true_eq]
    intro x hx
    exact key_mem_goMap _ hx

theorem envVarsEqual_refl (a : List EnvVar) : envVarsEqual a a = true := by
  unfold envVarsEqual
  rw [Bool.and_eq_true]
  exact ⟨by simp, keyedAll_self _ _ (nodupKeys_goMap _ a) (fun x _ => beq_self_eq_true _)⟩

theorem slicesEqual_refl (a : List String) : slicesEqual a a = true := by
  unfold slicesEqual
  rw [Bool.and_eq_true]
  exact ⟨by simp, keyedAll_self _ _ (nodupKeys_goMap _ a) (fun x _ => rfl)⟩

theorem portsEqual_refl (a : List ServicePort) : portsEqual a a = true := by
  unfold portsEqual
  rw [Bool.and_eq_true]
  exact ⟨by simp, keyedAll_self _ _ (nodupKeys_goMap _ a) (fun x _ => by simp)⟩

theorem mapsEqual_some_refl (a : List (String × String))
    (ha : NodupKeys (fun p => p.1) a) : mapsEqual (some a) (some a) = true := by
  simp only [mapsEqual, Bool.and_eq_true]
  exact ⟨by simp, keyedAll_self _ _ ha (fun x _ => beq_self_eq_true _)⟩

theorem tolerationsEqual_symm (a b : List Toleration)
    (ha : NodupKeys createTolerationKey a) (hb : NodupKeys createTolerationKey b) :
    TolerationsEqual (some a) (some b) = TolerationsEqual (some b) (some a) := by
  simp only [TolerationsEqual]
  rw [goMap_eq_self _ ha, goMap_eq_self _ hb]
  by_cases hlen : a.length = b.length
  · rw [beq_iff_eq.mpr hlen, beq_iff_eq.mpr hlen.symm]
    simp only [Bool.true_and]
    cases hba : keyedAll createTolerationKey (fun _ _ => true) b a with
    | true =>
      exact (keyedAll_flip createTolerationKey (fun _ _ => true)
        (fun _ _ h => h) hb ha hlen.symm hba).symm
    | false =>
      cases hab : keyedAll createTolerationKey (fun _ _ => true) a b with
      | true =>
        have hflip := keyedAll_flip createTolerationKey (fun _ _ => true)
          (fun _ _ h => h) ha hb hlen hab
        rw [hflip] at hba
        exact Bool.noConfusion hba
      | false => rfl
  · rw [beq_eq_false_iff_ne.mpr hlen, beq_eq_false_iff_ne.mpr (Ne.symm hlen)]
    simp

theorem envVarsEqual_symm (a b : List EnvVar)
    (ha : NodupKeys (fun e => e.name) a) (hb : NodupKeys (fun e => e.name) b) :
    envVarsEqual a b = envVarsEqual b a := by
  unfold envVarsEqual
  rw [goMap_eq_self _ ha, goMap_eq_self _ hb]
  exact lenKeyedAll_symm _ _
    (fun x y hxy => beq_iff_eq.mpr (beq_iff_eq.mp hxy).symm) a b ha hb

theorem slicesEqual_symm (a b : List String) (ha : a.Nodup) (hb : b.Nodup) :
    slicesEqual a b = slicesEqual b a := by
  have ha' : NodupKeys (fun s => s) a := by
    simpa [NodupKeys, List.map_id'] using ha
  have hb' : NodupKeys (fun s => s) b := by
    simpa [NodupKeys, List.map_id'] using hb
  unfold slicesEqual
  rw [goMap_eq_self _ ha', goMap_eq_self _ hb']
  exact lenKeyedAll_symm (fun s => s) (fun _ _ => true) (fun _ _ h => h) a b ha' hb'

theorem portsEqual_symm (a b : List ServicePort)
    (ha : NodupKeys (fun p => p.name) a) (hb : NodupKeys (fun p => p.name) b) :
    portsEqual a b = portsEqual b a := by
  unfold portsEqual
  rw [goMap_eq_self _ ha, goMap_eq_self _ hb]
  refine lenKeyedAll_symm _ _ ?_ a b ha hb
  intro x y hxy
  simp only [Bool.and_eq_true, beq_iff_eq] at hxy ⊢
  exact ⟨⟨hxy.1.1.symm, hxy.1.2.symm⟩, hxy.2.symm⟩

theorem mapsEqual_some_symm (a b : List (String × String))
    (ha : NodupKeys (fun p => p.1) a) (hb : NodupKeys (fun p => p.1) b) :
    mapsEqual (some a) (some b) = mapsEqual (some b) (some a) := by
  simp only [mapsEqual]
  exact lenKeyedAll_symm _ _
    (fun x y hxy => beq_iff_eq.mpr (beq_iff_eq.mp hxy).symm) a b ha hb

theorem strMapLookup_isSome_iff (m : List (String × String)) (k : String) :
    (strMapLookup m k).isSome = true ↔ k ∈ m.map (fun p => p.1) := by
  constructor
  · intro h
    rw [strMapLookup] at h
    cases hf : m.find? (fun p => p.1 == k) with
    | none => rw [hf] at h; exact absurd h (by simp)
    | some p =>
      have hp := List.find?_some hf
      have hpm : p ∈ m := List.mem_of_find?_eq_some hf
      exact (beq_iff_eq.mp hp) ▸ List.mem_map_of_mem _ hpm
  · intro h
    obtain ⟨p, hpm, hp1⟩ := List.mem_map.mp h
    have hsome : (m.find? (fun p => p.1 == k)).isSome = true :=
      List.find?_isSome.mpr ⟨p, hpm, beq_iff_eq.mpr hp1⟩
    rw [strMapLookup]
    cases hf : m.find? (fun p => p.1 == k) with
    | none => rw [hf] at hsome; exact absurd hsome (by simp)
    | some p' => rfl

end ComparisonFacts

end Overcommit

namespace Overcommit

section KeyInjectivity

theorem str_append_cancel_left {s t u : String} (h : s ++ t = s ++ u) : t = u := by
  apply String.ext
  have hd : s.data ++ t.data = s.data ++ u.data := by
    have hc := congrArg String.data h
    simpa [String.data_append] using hc
  exact List.append_cancel_left hd

theorem str_append_cancel_right {s t u : String} (h : s ++ u = t ++ u) : s = t := by
  apply String.ext
  have hd : s.data ++ u.data = t.data ++ u.data := by
    have hc := congrArg String.data h
    simpa [String.data_append] using hc
  exact List.append_cancel_right hd

theorem createTolerationKey_key_flip {t u : Toleration}
    (h2 : t.operator = u.operator) (h3 : t.value = u.value) (h4 : t.effect = u.effect)
    (h5 : t.tolerationSeconds.isSome = u.tolerationSeconds.isSome)
    (hne : t.key ≠ u.key) : createTolerationKey t ≠ createTolerationKey u := by
  intro h
  unfold createTolerationKey at h
  rw [← h2, ← h3, ← h4, ← h5] at h
  simp only [String.append_assoc] at h
  exact hne (str_append_cancel_right h)

theorem createTolerationKey_operator_flip {t u : Toleration}
    (h1 : t.key = u.key) (h3 : t.value = u.value) (h4 : t.effect = u.effect)
    (h5 : t.tolerationSeconds.isSome = u.tolerationSeconds.isSome)
    (hne : t.operator ≠ u.operator) : createTolerationKey t ≠ createTolerationKey u := by
  intro h
  unfold createTolerationKey at h
  rw [← h1, ← h3, ← h4, ← h5] at h
  simp only [String.append_assoc] at h
  have h := str_append_cancel_left h
  have h := str_append_cancel_left h
  exact hne (str_append_cancel_right h)

theorem createTolerationKey_value_flip {t u : Toleration}
    (h1 : t.key = u.key) (h2 : t.operator = u.operator) (h4 : t.effect = u.effect)
    (h5 : t.tolerationSeconds.isSome = u.tolerationSeconds.isSome)
    (hne : t.value ≠ u.value) : createTolerationKey t ≠ createTolerationKey u := by
  intro h
  unfold createTolerationKey at h
  rw [← h1, ← h2, ← h4, ← h5] at h
  simp only [String.append_assoc] at h
  have h := str_append_cancel_left h
  have h := str_append_cancel_left h
  have h := str_append_cancel_left h
  have h := str_append_cancel_left h
  exact hne (str_append_cancel_right h)

theorem createTolerationKey_effect_flip {t u : Toleration}
    (h1 : t.key = u.key) (h2 : t.operator = u.operator) (h3 : t.value = u.value)
    (h5 : t.tolerationSeconds.isSome = u.tolerationSeconds.isSome)
    (hne : t.effect ≠ u.effect) : createTolerationKey t ≠ createTolerationKey u := by
  intro h
  unfold createTolerationKey at h
  rw [← h1, ← h2, ← h3, ← h5] at h
  simp only [String.append_assoc] at h
  have h := str_append_cancel_left h
  have h := str_append_cancel_left h
  have h := str_append_cancel_left h
  have h := str_append_cancel_left h
  have h := str_append_cancel_left h
  have h := str_append_cancel_left h
  exact hne (str_append_cancel_right h)

theorem createTolerationKey_seconds_flip {t u : Toleration}
    (h1 : t.key = u.key) (h2 : t.operator = u.operator) (h3 : t.value = u.value)
    (h4 : t.effect = u.effect)
    (hne : t.tolerationSeconds.isSome ≠ u.tolerationSeconds.isSome) :
    createTolerationKey t ≠ createTolerationKey u := by
  intro h
  unfold createTolerationKey at h
  rw [← h1, ← h2, ← h3, ← h4] at h
  simp only [String.append_assoc] at h
  have h := str_append_cancel_left h
  have h := str_append_cancel_left h
  have h := str_append_cancel_left h
  have h := str_append_cancel_left h
  have h := str_append_cancel_left h
  have h := str_append_cancel_left h
  have h := str_append_cancel_left h
  have h := str_append_cancel_left h
  cases ht : t.tolerationSeconds.isSome <;> cases hu : u.tolerationSeconds.isSome
  · exact hne (ht.trans hu.symm)
  · rw [ht, hu] at h
    simp at h
  · rw [ht, hu] at h
    simp at h
  · exact hne (ht.trans hu.symm)

/-- Comparison of two singleton toleration lists reduces to key
equality. -/
theorem tolerationsEqual_singleton (t u : Toleration) :
    TolerationsEqual (some [t]) (some [u]) =
      (createTolerationKey t == createTolerationKey u) := by
  simp only [TolerationsEqual, goMap, List.foldl, insertKeyed, keyedAll, List.find?]
  cases h : createTolerationKey t == createTolerationKey u <;> simp [h]

end KeyInjectivity

section MapsEqualSpec

theorem mapsEqual_iff_lookup (a b : List (String × String))
    (ha : NodupKeys (fun p => p.1) a) (hb : NodupKeys (fun p => p.1) b) :
    mapsEqual (some a) (some b) = true ↔
      ∀ k : String, strMapLookup a k = strMapLookup b k := by
  have ha' : (a.map (fun p => p.1)).Nodup := ha
  have hb' : (b.map (fun p => p.1)).Nodup := hb
  constructor
  · intro H k
    simp only [mapsEqual, Bool.and_eq_true] at H
    obtain ⟨hlen, hallB⟩ := H
    have hlen' : a.length = b.length := beq_iff_eq.mp hlen
    have hall := hallB
    rw [keyedAll, List.all_eq_true] at hall
    cases hk : a.find? (fun p => p.1 == k) with
    | some p =>
      have hp1 := List.find?_some hk
      have hpa : p ∈ a := List.mem_of_find?_eq_some hk
      have hx' := hall p hpa
      cases hf : b.find? (fun q => q.1 == p.1) with
      | none =>
        rw [hf] at hx'
        exact absurd hx' (by simp)
      | some q =>
        rw [hf] at hx'
        have hv : p.2 = q.2 := beq_iff_eq.mp hx'
        have hk1 : p.1 = k := beq_iff_eq.mp hp1
        simp only [strMapLookup]
        rw [hk, ← hk1, hf]
        simp [hv]
    | none =>
      have hsub := keyedAll_keys_subset (fun p : String × String => p.1)
        (fun p q => p.2 == q.2) hallB
      have hsub2 : b.map (fun p => p.1) ⊆ a.map (fun p => p.1) :=
        subset_of_nodup_of_subset_of_len ha' hsub (by simp [hlen'])
      have hknota : k ∉ a.map (fun p => p.1) := by
        intro hmem
        obtain ⟨p, hpa, hp1⟩ := List.mem_map.mp hmem
        exact (List.find?_eq_none.mp hk p hpa) (beq_iff_eq.mpr hp1)
      have hfb : b.find? (fun p => p.1 == k) = none := by
        rw [List.find?_eq_none]
        intro q hq hbeq
        exact hknota (hsub2 ((beq_iff_eq.mp hbeq) ▸ List.mem_map_of_mem _ hq))
      simp only [strMapLookup]
      rw [hk, hfb]
  · intro Hp
    have hkeys : ∀ c, c ∈ a.map (fun p => p.1) ↔ c ∈ b.map (fun p => p.1) := by
      intro c
      rw [← strMapLookup_isSome_iff, ← strMapLookup_isSome_iff, Hp c]
    have hperm : (a.map (fun p => p.1)).Perm (b.map (fun p => p.1)) :=
      (List.perm_ext_iff_of_nodup ha' hb').mpr hkeys
    have hlen : a.length = b.length := by
      have hp := hperm.length_eq
      simpa using hp
    simp only [mapsEqual, Bool.and_eq_true]
    refine ⟨beq_iff_eq.mpr hlen, ?_⟩
    rw [keyedAll, List.all_eq_true]
    intro p hpa
    have hfa : a.find? (fun q => q.1 == p.1) = some p :=
      find?_key_eq_self (fun p => p.1) ha' hpa
    have hla : strMapLookup a p.1 = some p.2 := by simp [strMapLookup, hfa]
    have hlb : strMapLookup b p.1 = some p.2 := (Hp p.1) ▸ hla
    simp only [strMapLookup] at hlb
    cases hf : b.find? (fun q => q.1 == p.1) with
    | none =>
      rw [hf] at hlb
      exact absurd hlb (by simp)
    | some q =>
      rw [hf] at hlb
      have hq2 : q.2 = p.2 := by simpa using hlb
      simp [hq2]

end MapsEqualSpec

end Overcommit

namespace Overcommit

/-- Claim C2 (corrected): every comparison function of the equality
kernel is reflexive (`mapsEqual` on well-formed map representations, the
others on all inputs), and symmetric provided the inputs contain no
duplicate keys or duplicate elements; the nil cases are symmetric
unconditionally.  With duplicates, symmetry can fail (see the
counterexample). -/
theorem C2_equality_kernel_refl_symm :
    (∀ oa : Option (List Toleration), TolerationsEqual oa oa = true) ∧
    (∀ a : List EnvVar, envVarsEqual a a = true) ∧
    (∀ a : List String, slicesEqual a a = true) ∧
    (∀ a : List ServicePort, portsEqual a a = true) ∧
    (mapsEqual none none = true) ∧
    (∀ a : List (String × String), NodupKeys (fun p => p.1) a →
      mapsEqual (some a) (some a) = true) ∧
    (∀ a b : List Toleration, NodupKeys createTolerationKey a →
      NodupKeys createTolerationKey b →
      TolerationsEqual (some a) (some b) = TolerationsEqual (some b) (some a)) ∧
    (∀ a : List Toleration,
      TolerationsEqual none (some a) = TolerationsEqual (some a) none) ∧
    (∀ a b : List EnvVar, NodupKeys (fun e => e.name) a → NodupKeys (fun e => e.name) b →
      envVarsEqual a b = envVarsEqual b a) ∧
    (∀ a b : List String, a.Nodup → b.Nodup → slicesEqual a b = slicesEqual b a) ∧
    (∀ a b : List ServicePort, NodupKeys (fun p => p.name) a →
      NodupKeys (fun p => p.name) b → portsEqual a b = portsEqual b a) ∧
    (∀ a b : List (String × String), NodupKeys (fun p => p.1) a →
      NodupKeys (fun p => p.1) b →
      mapsEqual (some a) (some b) = mapsEqual (some b) (some a)) ∧
    (∀ a : List (String × String),
      mapsEqual none (some a) = mapsEqual (some a) none) :=
  ⟨tolerationsEqual_refl, envVarsEqual_refl, slicesEqual_refl, portsEqual_refl,
   by decide, mapsEqual_some_refl, tolerationsEqual_symm, fun a => rfl,
   envVarsEqual_symm, slicesEqual_symm, portsEqual_symm, mapsEqual_some_symm,
   fun a => rfl⟩

/-- Claim C2, witness: the duplicate-free symmetry statement applied at
a concrete pair of slices. -/
theorem C2_witness :
    slicesEqual ["a", "b"] ["b", "a"] = slicesEqual ["b", "a"] ["a", "b"] :=
  C2_equality_kernel_refl_symm.2.2.2.2.2.2.2.2.2.1 ["a", "b"] ["b", "a"]
    (by decide) (by decide)

/-- Claim C2, counterexample: with a duplicate element, `slicesEqual` is
not symmetric, refuting the claim for inputs whose lists contain
duplicate elements. -/
theorem C2_counterexample :
    slicesEqual ["a", "a"] ["a", "b"] = true ∧
      slicesEqual ["a", "b"] ["a", "a"] = false := by
  decide

/-- Claim C3 (corrected): on singleton toleration lists, flipping the
key, operator, value, effect, or the nil-ness of tolerationSeconds alone
makes `TolerationsEqual` return false; but two tolerations differing
only in the numeric value of a non-nil tolerationSeconds always compare
as equal, because `createTolerationKey` collapses the value to a
nil/non-nil marker. -/
theorem C3_owned_attribute_flips : ∀ t u : Toleration,
    (t.operator = u.operator → t.value = u.value → t.effect = u.effect →
      t.tolerationSeconds.isSome = u.tolerationSeconds.isSome → t.key ≠ u.key →
      TolerationsEqual (some [t]) (some [u]) = false) ∧
    (t.key = u.key → t.value = u.value → t.effect = u.effect →
      t.tolerationSeconds.isSome = u.tolerationSeconds.isSome → t.operator ≠ u.operator →
      TolerationsEqual (some [t]) (some [u]) = false) ∧
    (t.key = u.key → t.operator = u.operator → t.effect = u.effect →
      t.tolerationSeconds.isSome = u.tolerationSeconds.isSome → t.value ≠ u.value →
      TolerationsEqual (some [t]) (some [u]) = false) ∧
    (t.key = u.key → t.operator = u.operator → t.value = u.value →
      t.tolerationSeconds.isSome = u.tolerationSeconds.isSome → t.effect ≠ u.effect →
      TolerationsEqual (some [t]) (some [u]) = false) ∧
    (t.key = u.key → t.operator = u.operator → t.value = u.value → t.effect = u.effect →
      t.tolerationSeconds.isSome ≠ u.tolerationSeconds.isSome →
      TolerationsEqual (some [t]) (some [u]) = false) ∧
    (∀ s1 s2 : Int,
      TolerationsEqual (some [{ t with tolerationSeconds := some s1 }])
        (some [{ t with tolerationSeconds := some s2 }]) = true) := by
  intro t u
  refine ⟨?_, ?_, ?_, ?_, ?_, ?_⟩
  · intro h2 h3 h4 h5 hne
    rw [tolerationsEqual_singleton]
    exact beq_eq_false_iff_ne.mpr (createTolerationKey_key_flip h2 h3 h4 h5 hne)
  · intro h1 h3 h4 h5 hne
    rw [tolerationsEqual_singleton]
    exact beq_eq_false_iff_ne.mpr (createTolerationKey_operator_flip h1 h3 h4 h5 hne)
  · intro h1 h2 h4 h5 hne
    rw [tolerationsEqual_singleton]
    exact beq_eq_false_iff_ne.mpr (createTolerationKey_value_flip h1 h2 h4 h5 hne)
  · intro h1 h2 h3 h5 hne
    rw [tolerationsEqual_singleton]
    exact beq_eq_false_iff_ne.mpr (createTolerationKey_effect_flip h1 h2 h3 h5 hne)
  · intro h1 h2 h3 h4 hne
    rw [tolerationsEqual_singleton]
    exact beq_eq_false_iff_ne.mpr (createTolerationKey_seconds_flip h1 h2 h3 h4 hne)
  · intro s1 s2
    rw [tolerationsEqual_singleton]
    simp [createTolerationKey]

/-- Claim C3, witness: the key-flip case at a concrete pair. -/
theorem C3_witness :
    TolerationsEqual (some [⟨"a", "Equal", "v", "NoSchedule", none⟩])
      (some [⟨"b", "Equal", "v", "NoSchedule", none⟩]) = false :=
  (C3_owned_attribute_flips ⟨"a", "Equal", "v", "NoSchedule", none⟩
    ⟨"b", "Equal", "v", "NoSchedule", none⟩).1 rfl rfl rfl rfl (by decide)

/-- Claim C3, counterexample: two toleration lists identical except for
the numeric value of a non-nil tolerationSeconds compare as equal, not
unequal as the claim states. -/
theorem C3_counterexample :
    TolerationsEqual (some [⟨"node", "Equal", "v", "NoSchedule", some 5⟩])
        (some [⟨"node", "Equal", "v", "NoSchedule", some 10⟩]) = true ∧
      (Toleration.mk "node" "Equal" "v" "NoSchedule" (some 5)).tolerationSeconds ≠
        (Toleration.mk "node" "Equal" "v" "NoSchedule" (some 10)).tolerationSeconds := by
  decide

/-- Claim C8 (confirmed): `TolerationsEqual` is permutation-invariant:
it accepts a list against its reverse, and more generally accepts any
two lists of the same length in which every element of the second has
its toleration key present in the first. -/
theorem C8_tolerations_permutation_invariant :
    (∀ t : List Toleration, TolerationsEqual (some t.reverse) (some t) = true) ∧
    (∀ a b : List Toleration, a.length = b.length →
      (∀ x ∈ b, ∃ y ∈ a, createTolerationKey y = createTolerationKey x) →
      TolerationsEqual (some a) (some b) = true) := by
  constructor
  · intro t
    simp only [TolerationsEqual, Bool.and_eq_true]
    refine ⟨by simp, ?_⟩
    rw [keyedAll_true_eq]
    intro x hx
    exact key_mem_goMap _ (List.mem_reverse.mpr hx)
  · intro a b hlen hmem
    simp only [TolerationsEqual, Bool.and_eq_true]
    refine ⟨beq_iff_eq.mpr hlen, ?_⟩
    rw [keyedAll_true_eq]
    intro x hx
    obtain ⟨y, hya, hkey⟩ := hmem x hx
    exact hkey ▸ key_mem_goMap _ hya

/-- Claim C8, witness: the general form applied at a concrete pair of
permuted toleration lists. -/
theorem C8_witness :
    TolerationsEqual
      (some [⟨"k1", "Exists", "", "NoSchedule", none⟩,
             ⟨"k2", "Exists", "", "NoExecute", none⟩])
      (some [⟨"k2", "Exists", "", "NoExecute", none⟩,
             ⟨"k1", "Exists", "", "NoSchedule", none⟩]) = true :=
  C8_tolerations_permutation_invariant.2 _ _ (by decide) (by decide)

/-- Claim C9 (confirmed): `mapsEqual` distinguishes nil from empty and
on two non-nil (well-formed) maps returns true exactly when the two
maps agree as key-value functions. -/
theorem C9_maps_nil_vs_empty :
    mapsEqual none (some []) = false ∧
    mapsEqual (some []) none = false ∧
    mapsEqual none none = true ∧
    ∀ a b : List (String × String), NodupKeys (fun p => p.1) a →
      NodupKeys (fun p => p.1) b →
      (mapsEqual (some a) (some b) = true ↔
        ∀ k : String, strMapLookup a k = strMapLookup b k) :=
  ⟨by decide, by decide, by decide, mapsEqual_iff_lookup⟩

/-- Claim C9, witness: the characterisation applied at concrete maps. -/
theorem C9_witness : mapsEqual (some [("k", "v")]) (some [("k", "v")]) = true :=
  (C9_maps_nil_vs_empty.2.2.2 [("k", "v")] [("k", "v")]
    (by unfold NodupKeys; decide) (by unfold NodupKeys; decide)).mpr (fun _ => rfl)

end Overcommit

namespace Overcommit

section ReconcilerLemmas

/-- A failing upsert whose conflict is not swallowed aborts the chain
with exactly its error, wherever it sits after a successful prefix. -/
theorem runUpserts_abort (e : GoError) :
    ∀ pre post : List (Option GoError × Bool), (∀ x ∈ pre, x.1 = none) →
      (runUpserts (pre ++ (some e, false) :: post)).2 = some e := by
  intro pre
  induction pre with
  | nil =>
    intro post _
    simp [runUpserts]
  | cons x xs ih =>
    intro post hall
    obtain ⟨x1, x2⟩ := x
    have hx : x1 = none := hall (x1, x2) (List.mem_cons_self _ _)
    subst hx
    simp only [List.cons_append, runUpserts]
    exact ih post (fun y hy => hall y (List.mem_cons_of_mem _ hy))

theorem stripLegacy_no_legacy :
    ∀ f : List String, (stripLegacy f).contains "overcommit.finalizer" = false ∧
      (stripLegacy f).contains "webhook.finalizer" = false ∧
      stripLegacy (stripLegacy f) = stripLegacy f := by
  intro f
  have hmem : ∀ s : String, legacyFinalizers.contains s = true →
      (stripLegacy f).contains s = false := by
    intro s hs
    cases hc : (stripLegacy f).contains s with
    | false => rfl
    | true =>
      have hsin : s ∈ stripLegacy f := by simpa using hc
      have hprop := (List.mem_filter.mp hsin).2
      rw [hs] at hprop
      exact absurd hprop (by simp)
  refine ⟨hmem _ (by decide), hmem _ (by decide), ?_⟩
  unfold stripLegacy
  rw [List.filter_filter]
  simp [Bool.and_self]

theorem stripLegacy_of_no_legacy {f : List String}
    (h1 : f.contains "overcommit.finalizer" = false)
    (h2 : f.contains "webhook.finalizer" = false) : stripLegacy f = f := by
  unfold stripLegacy
  apply List.filter_eq_self.mpr
  intro s hs
  simp only [legacyFinalizers, Bool.not_eq_true']
  cases hc : List.contains ["overcommit.finalizer", "webhook.finalizer"] s with
  | false => rfl
  | true =>
    have hin : s ∈ ["overcommit.finalizer", "webhook.finalizer"] := by simpa using hc
    rcases List.mem_cons.mp hin with rfl | hin2
    · have hcontra : f.contains "overcommit.finalizer" = true := by simpa using hs
      rw [hcontra] at h1
      exact Bool.noConfusion h1
    · have heq : s = "webhook.finalizer" := by simpa using hin2
      subst heq
      have hcontra : f.contains "webhook.finalizer" = true := by simpa using hs
      rw [hcontra] at h2
      exact Bool.noConfusion h2

end ReconcilerLemmas

end Overcommit

namespace Overcommit

section MutateLemmas

theorem deployMutate_create (u c : DeployObj) (h : c.creationTimestampIsZero = true) :
    deployMutate u c =
      { c with
        spec := u.spec
        metaLabels := u.metaLabels
        metaAnnots := u.metaAnnots
        ownerRefSet := true } := by
  unfold deployMutate
  rw [if_pos h]

theorem deployMutate_patch_image (u c : DeployObj)
    (h : c.creationTimestampIsZero = false) (hne : u.spec.image ≠ c.spec.image) :
    (deployMutate u c).spec.image = u.spec.image := by
  have hb1 : (u.spec.image == c.spec.image) = false := beq_eq_false_iff_ne.mpr hne
  unfold deployMutate
  rw [if_neg (by simp [h])]
  by_cases h2 : envVarsEqual u.spec.env c.spec.env = true <;>
    by_cases h3 : mapsEqual u.spec.templateAnnots c.spec.templateAnnots = true <;>
      by_cases h4 : mapsEqual u.spec.templateLabels c.spec.templateLabels = true <;>
        by_cases h5 : mapsEqual u.spec.nodeSelector c.spec.nodeSelector = true <;>
          by_cases h6 : TolerationsEqual u.spec.tolerations c.spec.tolerations = true <;>
            simp [hb1, h2, h3, h4, h5, h6]

theorem deployMutate_patch_env (u c : DeployObj)
    (h : c.creationTimestampIsZero = false)
    (hne : envVarsEqual u.spec.env c.spec.env = false) :
    (deployMutate u c).spec.env = u.spec.env := by
  unfold deployMutate
  rw [if_neg (by simp [h])]
  by_cases h1 : (u.spec.image == c.spec.image) = true <;>
    by_cases h3 : mapsEqual u.spec.templateAnnots c.spec.templateAnnots = true <;>
      by_cases h4 : mapsEqual u.spec.templateLabels c.spec.templateLabels = true <;>
        by_cases h5 : mapsEqual u.spec.nodeSelector c.spec.nodeSelector = true <;>
          by_cases h6 : TolerationsEqual u.spec.tolerations c.spec.tolerations = true <;>
            simp [hne, h1, h3, h4, h5, h6]

theorem deployMutate_patch_annots (u c : DeployObj)
    (h : c.creationTimestampIsZero = false)
    (hne : mapsEqual u.spec.templateAnnots c.spec.templateAnnots = false) :
    (deployMutate u c).spec.templateAnnots = u.spec.templateAnnots := by
  unfold deployMutate
  rw [if_neg (by simp [h])]
  by_cases h1 : (u.spec.image == c.spec.image) = true <;>
    by_cases h2 : envVarsEqual u.spec.env c.spec.env = true <;>
      by_cases h4 : mapsEqual u.spec.templateLabels c.spec.templateLabels = true <;>
        by_cases h5 : mapsEqual u.spec.nodeSelector c.spec.nodeSelector = true <;>
          by_cases h6 : TolerationsEqual u.spec.tolerations c.spec.tolerations = true <;>
            simp [hne, h1, h2, h4, h5, h6]

theorem deployMutate_patch_labels (u c : DeployObj)
    (h : c.creationTimestampIsZero = false)
    (hne : mapsEqual u.spec.templateLabels c.spec.templateLabels = false) :
    (deployMutate u c).spec.templateLabels = u.spec.templateLabels := by
  unfold deployMutate
  rw [if_neg (by simp [h])]
  by_cases h1 : (u.spec.image == c.spec.image) = true <;>
    by_cases h2 : envVarsEqual u.spec.env c.spec.env = true <;>
      by_cases h3 : mapsEqual u.spec.templateAnnots c.spec.templateAnnots = true <;>
        by_cases h5 : mapsEqual u.spec.nodeSelector c.spec.nodeSelector = true <;>
          by_cases h6 : TolerationsEqual u.spec.tolerations c.spec.tolerations = true <;>
            simp [hne, h1, h2, h3, h5, h6]

theorem deployMutate_patch_nodeSelector (u c : DeployObj)
    (h : c.creationTimestampIsZero = false)
    (hne : mapsEqual u.spec.nodeSelector c.spec.nodeSelector = false) :
    (deployMutate u c).spec.nodeSelector = u.spec.nodeSelector := by
  unfold deployMutate
  rw [if_neg (by simp [h])]
  by_cases h1 : (u.spec.image == c.spec.image) = true <;>
    by_cases h2 : envVarsEqual u.spec.env c.spec.env = true <;>
      by_cases h3 : mapsEqual u.spec.templateAnnots c.spec.templateAnnots = true <;>
        by_cases h4 : mapsEqual u.spec.templateLabels c.spec.templateLabels = true <;>
          by_cases h6 : TolerationsEqual u.spec.tolerations c.spec.tolerations = true <;>
            simp [hne, h1, h2, h3, h4, h6]

theorem deployMutate_patch_tolerations (u c : DeployObj)
    (h : c.creationTimestampIsZero = false)
    (hne : TolerationsEqual u.spec.tolerations c.spec.tolerations = false) :
    (deployMutate u c).spec.tolerations = u.spec.tolerations := by
  unfold deployMutate
  rw [if_neg (by simp [h])]
  by_cases h1 : (u.spec.image == c.spec.image) = true <;>
    by_cases h2 : envVarsEqual u.spec.env c.spec.env = true <;>
      by_cases h3 : mapsEqual u.spec.templateAnnots c.spec.templateAnnots = true <;>
        by_cases h4 : mapsEqual u.spec.templateLabels c.spec.templateLabels = true <;>
          by_cases h5 : mapsEqual u.spec.nodeSelector c.spec.nodeSelector = true <;>
            simp [hne, h1, h2, h3, h4, h5]

end MutateLemmas

end Overcommit

namespace Overcommit

/-- Claim C4 (corrected): every managed object of the singleton
reconciler receives the full desired shape and the controller reference
on the create path (zero creation timestamp); on the update path only
the three deployments patch the owned attributes that the equality
kernel reports as unequal, while services, certificates, webhook
configurations and the issuer are returned untouched. -/
theorem C4_desired_state_upsert :
    (∀ u c : DeployObj, c.creationTimestampIsZero = true →
      deployMutate u c =
        { c with
          spec := u.spec
          metaLabels := u.metaLabels
          metaAnnots := u.metaAnnots
          ownerRefSet := true }) ∧
    (∀ u c : DeployObj, c.creationTimestampIsZero = false →
      (u.spec.image ≠ c.spec.image → (deployMutate u c).spec.image = u.spec.image) ∧
      (envVarsEqual u.spec.env c.spec.env = false →
        (deployMutate u c).spec.env = u.spec.env) ∧
      (mapsEqual u.spec.templateAnnots c.spec.templateAnnots = false →
        (deployMutate u c).spec.templateAnnots = u.spec.templateAnnots) ∧
      (mapsEqual u.spec.templateLabels c.spec.templateLabels = false →
        (deployMutate u c).spec.templateLabels = u.spec.templateLabels) ∧
      (mapsEqual u.spec.nodeSelector c.spec.nodeSelector = false →
        (deployMutate u c).spec.nodeSelector = u.spec.nodeSelector) ∧
      (TolerationsEqual u.spec.tolerations c.spec.tolerations = false →
        (deployMutate u c).spec.tolerations = u.spec.tolerations)) ∧
    (∀ u c : ServiceObj, c.creationTimestampIsZero = true →
      serviceMutate u c = { c with spec := u.spec, ownerRefSet := true }) ∧
    (∀ u c : ServiceObj, c.creationTimestampIsZero = false → serviceMutate u c = c) ∧
    (∀ u c : CertObj, c.creationTimestampIsZero = true →
      certMutate u c = { c with spec := u.spec, ownerRefSet := true }) ∧
    (∀ u c : CertObj, c.creationTimestampIsZero = false → certMutate u c = c) ∧
    (∀ u c : WebhookConfigObj, c.creationTimestampIsZero = true →
      classWebhookMutate u c =
        { c with
          annots := u.annots
          webhooks := u.webhooks
          ownerRefSet := true }) ∧
    (∀ u c : WebhookConfigObj, c.creationTimestampIsZero = false →
      classWebhookMutate u c = c) ∧
    (∀ u c : WebhookConfigObj, c.creationTimestampIsZero = true →
      podWebhookMutate u c = { c with webhooks := u.webhooks, ownerRefSet := true }) ∧
    (∀ u c : WebhookConfigObj, c.creationTimestampIsZero = false →
      podWebhookMutate u c = c) ∧
    (∀ c : IssuerObj, c.creationTimestampIsZero = true →
      issuerMutate c = { c with ownerRefSet := true }) ∧
    (∀ c : IssuerObj, c.creationTimestampIsZero = false → issuerMutate c = c) := by
  refine ⟨deployMutate_create, ?_, ?_, ?_, ?_, ?_, ?_, ?_, ?_, ?_, ?_, ?_⟩
  · intro u c h
    exact ⟨deployMutate_patch_image u c h, deployMutate_patch_env u c h,
      deployMutate_patch_annots u c h, deployMutate_patch_labels u c h,
      deployMutate_patch_nodeSelector u c h, deployMutate_patch_tolerations u c h⟩
  · intro u c h
    simp [serviceMutate, h]
  · intro u c h
    simp [serviceMutate, h]
  · intro u c h
    simp [certMutate, h]
  · intro u c h
    simp [certMutate, h]
  · intro u c h
    simp [classWebhookMutate, h]
  · intro u c h
    simp [classWebhookMutate, h]
  · intro u c h
    simp [podWebhookMutate, h]
  · intro u c h
    simp [podWebhookMutate, h]
  · intro c h
    simp [issuerMutate, h]
  · intro c h
    simp [issuerMutate, h]

/-- Claim C4, witness: an existing deployment whose image differs from
the desired one has the image patched. -/
theorem C4_witness :
    (deployMutate
      ⟨true, ⟨"registry/app:2", [], none, none, none, none⟩, none, none, false⟩
      ⟨false, ⟨"registry/app:1", [], none, none, none, none⟩, none, none, false⟩).spec.image =
      "registry/app:2" :=
  (C4_desired_state_upsert.2.1
    ⟨true, ⟨"registry/app:2", [], none, none, none, none⟩, none, none, false⟩
    ⟨false, ⟨"registry/app:1", [], none, none, none, none⟩, none, none, false⟩
    rfl).1 (by decide)

/-- Claim C4, counterexample: an existing service whose ports the
equality kernel reports as unequal to the desired ports is returned
untouched by the service mutate callback, so the unequal owned
attribute is not patched to the desired value as the claim states. -/
theorem C4_counterexample :
    serviceMutate
        ⟨true, ⟨none, [⟨"https", 443, .int 8443, "TCP"⟩], "ClusterIP"⟩, false⟩
        ⟨false, ⟨none, [⟨"https", 80, .int 8080, "TCP"⟩], "ClusterIP"⟩, false⟩ =
      ⟨false, ⟨none, [⟨"https", 80, .int 8080, "TCP"⟩], "ClusterIP"⟩, false⟩ ∧
    portsEqual [⟨"https", 443, .int 8443, "TCP"⟩] [⟨"https", 80, .int 8080, "TCP"⟩] =
      false ∧
    ([⟨"https", 80, .int 8080, "TCP"⟩] : List ServicePort) ≠
      [⟨"https", 443, .int 8443, "TCP"⟩] := by
  refine ⟨rfl, by decide, by decide⟩

end Overcommit

namespace Overcommit

/-- Claim C1 (corrected): a status-update failure never fails the
singleton reconciler, which always completes with a 10 s requeue and no
error whatever `statusErr` is; but the class reconciler returns the
status-update error, so the claim's statement for the per-class
reconciler fails on the code. -/
theorem C1_status_error_asymmetry :
    (∀ t : OvercommitTick, t.labelErr = none → t.getErr = none →
      t.finalizers.contains "overcommit.finalizer" = false →
      t.finalizers.contains "webhook.finalizer" = false →
      t.issuerIsNil = false →
      t.issuerErr = none → t.classCertErr = none → t.classDeployErr = none →
      t.classServiceErr = none → t.classWebhookErr = none → t.podCertErr = none →
      t.podDeployErr = none → t.podServiceErr = none → t.podWebhookErr = none →
      t.controllerDeployErr = none →
      OvercommitReconcile t = ⟨⟨10000⟩, none, t.finalizers, false, 10, true⟩) ∧
    (∀ t : ClassTick, ∀ e : GoError, t.labelErr = none → t.getErr = none →
      t.deletionTimestampZero = true → t.hasFinalizer = true →
      t.getOvercommitErr = none → t.ownerCorrect = true →
      t.deployErr = none → t.serviceErr = none → t.certErr = none →
      t.webhookErr = none → t.metricsErr = none → t.statusErr = some e →
      OvercommitClassReconcile t = ⟨⟨0⟩, some e, 4, true⟩) := by
  constructor
  · intro t h1 h2 h3 h4 h5 h6 h7 h8 h9 h10 h11 h12 h13 h14 h15
    have h3m : "overcommit.finalizer" ∉ t.finalizers := by simpa using h3
    have h4m : "webhook.finalizer" ∉ t.finalizers := by simpa using h4
    simp [OvercommitReconcile, legacyFinalizers, overcommitUpserts, runUpserts,
      h1, h2, h3m, h4m, h5, h6, h7, h8, h9, h10, h11, h12, h13, h14, h15]
  · intro t e h1 h2 h3 h4 h5 h6 h7 h8 h9 h10 h11 h12
    simp [OvercommitClassReconcile, runUpserts,
      h1, h2, h3, h4, h5, h6, h7, h8, h9, h10, h11, h12]

/-- Claim C1, witness: the singleton conclusion applied at a tick whose
status update fails with a conflict. -/
theorem C1_witness :
    OvercommitReconcile
      ⟨none, none, [], none, false, none, none, none, none, none, none, none,
        none, none, none, some .conflict⟩ =
      ⟨⟨10000⟩, none, [], false, 10, true⟩ :=
  C1_status_error_asymmetry.1 _ rfl rfl rfl rfl rfl rfl rfl rfl rfl rfl rfl rfl
    rfl rfl rfl

/-- Claim C1, counterexample: a class-reconciler tick that converged all
four managed objects and fails only the status update returns that
error, so the status-update failure does fail the reconciliation. -/
theorem C1_counterexample :
    (OvercommitClassReconcile
      ⟨none, none, true, none, none, true, none, none, true, none, none, none,
        none, none, none, none, some (.other "status update failed")⟩).error =
      some (.other "status update failed") := by
  rfl

/-- Claim C5 (confirmed): a conflict from the pod webhook upsert is
swallowed and the singleton tick completes with the periodic requeue,
whereas a conflict from any non-swallowing upsert, for example the
OvercommitClass validating webhook configuration, is returned
immediately. -/
theorem C5_conflict_asymmetry :
    (∀ t : OvercommitTick, t.labelErr = none → t.getErr = none →
      t.finalizers.contains "overcommit.finalizer" = false →
      t.finalizers.contains "webhook.finalizer" = false →
      t.issuerIsNil = false →
      t.issuerErr = none → t.classCertErr = none → t.classDeployErr = none →
      t.classServiceErr = none → t.classWebhookErr = none → t.podCertErr = none →
      t.podDeployErr = none → t.podServiceErr = none →
      t.podWebhookErr = some .conflict → t.controllerDeployErr = none →
      OvercommitReconcile t = ⟨⟨10000⟩, none, t.finalizers, false, 10, true⟩) ∧
    (∀ t : OvercommitTick, t.labelErr = none → t.getErr = none →
      t.finalizers.contains "overcommit.finalizer" = false →
      t.finalizers.contains "webhook.finalizer" = false →
      t.issuerIsNil = false →
      t.issuerErr = none → t.classCertErr = none → t.classDeployErr = none →
      t.classServiceErr = none → t.classWebhookErr = some .conflict →
      OvercommitReconcile t = ⟨⟨0⟩, some .conflict, t.finalizers, false, 5, false⟩) ∧
    (∀ (e : GoError) (pre post : List (Option GoError × Bool)),
      (∀ x ∈ pre, x.1 = none) →
      (runUpserts (pre ++ (some e, false) :: post)).2 = some e) := by
  refine ⟨?_, ?_, fun e pre post hp => runUpserts_abort e pre post hp⟩
  · intro t h1 h2 h3 h4 h5 h6 h7 h8 h9 h10 h11 h12 h13 h14 h15
    have h3m : "overcommit.finalizer" ∉ t.finalizers := by simpa using h3
    have h4m : "webhook.finalizer" ∉ t.finalizers := by simpa using h4
    simp [OvercommitReconcile, legacyFinalizers, overcommitUpserts, runUpserts,
      isConflict, h1, h2, h3m, h4m, h5, h6, h7, h8, h9, h10, h11, h12, h13, h14, h15]
  · intro t h1 h2 h3 h4 h5 h6 h7 h8 h9 h10
    have h3m : "overcommit.finalizer" ∉ t.finalizers := by simpa using h3
    have h4m : "webhook.finalizer" ∉ t.finalizers := by simpa using h4
    simp [OvercommitReconcile, legacyFinalizers, overcommitUpserts, runUpserts,
      isConflict, h1, h2, h3m, h4m, h5, h6, h7, h8, h9, h10]

/-- Claim C5, witness: the swallowed pod-webhook conflict at a concrete
tick. -/
theorem C5_witness :
    OvercommitReconcile
      ⟨none, none, [], none, false, none, none, none, none, none, none, none,
        none, some .conflict, none, none⟩ =
      ⟨⟨10000⟩, none, [], false, 10, true⟩ :=
  C5_conflict_asymmetry.1 _ rfl rfl rfl rfl rfl rfl rfl rfl rfl rfl rfl rfl rfl
    rfl rfl

/-- Claim C7 (confirmed): on a tick that strips at least one legacy
finalizer the object is persisted and the reconcile requeues after
exactly one second with no upsert and no status update; with no legacy
finalizer present the migration changes nothing; and stripping is
idempotent, so repeated reconciles are no-ops. -/
theorem C7_legacy_finalizer_migration :
    (∀ t : OvercommitTick, t.labelErr = none → t.getErr = none →
      (t.finalizers.contains "overcommit.finalizer" = true ∨
        t.finalizers.contains "webhook.finalizer" = true) →
      t.finalizerUpdateErr = none →
      OvercommitReconcile t =
        ⟨⟨1000⟩, none, stripLegacy t.finalizers, true, 0, false⟩) ∧
    (∀ t : OvercommitTick, t.labelErr = none → t.getErr = none →
      t.finalizers.contains "overcommit.finalizer" = false →
      t.finalizers.contains "webhook.finalizer" = false →
      (OvercommitReconcile t).finalizersAfter = t.finalizers ∧
        (OvercommitReconcile t).persistedFinalizers = false) ∧
    (∀ f : List String, (stripLegacy f).contains "overcommit.finalizer" = false ∧
      (stripLegacy f).contains "webhook.finalizer" = false ∧
      stripLegacy (stripLegacy f) = stripLegacy f) := by
  refine ⟨?_, ?_, stripLegacy_no_legacy⟩
  · intro t h1 h2 hor h3
    have hm : "overcommit.finalizer" ∈ t.finalizers ∨
        "webhook.finalizer" ∈ t.finalizers := by
      rcases hor with h | h
      · exact Or.inl (by simpa using h)
      · exact Or.inr (by simpa using h)
    simp [OvercommitReconcile, legacyFinalizers, h1, h2, h3, hm]
  · intro t h1 h2 h3 h4
    have h3m : "overcommit.finalizer" ∉ t.finalizers := by simpa using h3
    have h4m : "webhook.finalizer" ∉ t.finalizers := by simpa using h4
    refine ⟨?_, ?_⟩ <;>
      · cases hiss : t.issuerIsNil <;>
          cases hup : (runUpserts (overcommitUpserts t)).2 <;>
            simp [OvercommitReconcile, legacyFinalizers, h1, h2, h3m, h4m,
              hiss, hup]

/-- Claim C7, witness: the stripping conclusion at a concrete tick
holding one legacy and one foreign finalizer. -/
theorem C7_witness :
    OvercommitReconcile
      ⟨none, none, ["overcommit.finalizer", "keep.me"], none, false, none, none,
        none, none, none, none, none, none, none, none, none⟩ =
      ⟨⟨1000⟩, none, ["keep.me"], true, 0, false⟩ := by
  simpa using C7_legacy_finalizer_migration.1
    ⟨none, none, ["overcommit.finalizer", "keep.me"], none, false, none, none,
      none, none, none, none, none, none, none, none, none⟩
    rfl rfl (Or.inl (by decide)) rfl

/-- Claim C10 (confirmed): when the four managed objects converged and
`getTotalClasses` fails, the class reconciler returns the empty result
with the stale nil error, skipping the status update and the 10 s
requeue. -/
theorem C10_metrics_error_nil_return :
    ∀ t : ClassTick, ∀ e : GoError, t.labelErr = none → t.getErr = none →
      t.deletionTimestampZero = true → t.hasFinalizer = true →
      t.getOvercommitErr = none → t.ownerCorrect = true →
      t.deployErr = none → t.serviceErr = none → t.certErr = none →
      t.webhookErr = none → t.metricsErr = some e →
      OvercommitClassReconcile t = ⟨⟨0⟩, none, 4, false⟩ := by
  intro t e h1 h2 h3 h4 h5 h6 h7 h8 h9 h10 h11
  simp [OvercommitClassReconcile, runUpserts,
    h1, h2, h3, h4, h5, h6, h7, h8, h9, h10, h11]

/-- Claim C10, witness: the metrics-failure conclusion at a concrete
tick. -/
theorem C10_witness :
    OvercommitClassReconcile
      ⟨none, none, true, none, none, true, none, none, true, none, none, none,
        none, none, none, some (.other "metrics"), some (.other "status")⟩ =
      ⟨⟨0⟩, none, 4, false⟩ :=
  C10_metrics_error_nil_return _ (.other "metrics") rfl rfl rfl rfl rfl rfl rfl
    rfl rfl rfl rfl

end Overcommit

namespace Overcommit

section StatusLoopLemmas

theorem statusLoop_bounds (fetch upd : Nat → Option GoError) :
    ∀ fuel a : Nat, (statusLoop fetch upd a fuel).fetches ≤ fuel ∧
      (statusLoop fetch upd a fuel).updates ≤ (statusLoop fetch upd a fuel).fetches := by
  intro fuel
  induction fuel with
  | zero =>
    intro a
    simp [statusLoop]
  | succ n ih =>
    intro a
    simp only [statusLoop]
    cases hf : fetch a with
    | some e =>
      cases e <;> simp [ignoreNotFound]
    | none =>
      cases hu : upd a with
      | none => simp
      | some e =>
        by_cases hl : (a == maxRetries - 1) = true
        · simp [hl]
        · by_cases hc : isConflict e = true
          · obtain ⟨ih1, ih2⟩ := ih (a + 1)
            simp only [hl, hc, Bool.false_eq_true, if_false, if_true]
            simp
            omega
          · simp [hl, hc]

theorem statusLoop_conflict_run (fetch upd : Nat → Option GoError) :
    ∀ k a : Nat, a + k ≤ 4 →
      (∀ j, a ≤ j → j < a + k → fetch j = none ∧ upd j = some .conflict) →
      statusLoop fetch upd a (5 - a) =
        ⟨(statusLoop fetch upd (a + k) (5 - (a + k))).result,
         (statusLoop fetch upd (a + k) (5 - (a + k))).fetches + k,
         (statusLoop fetch upd (a + k) (5 - (a + k))).updates + k,
         ((List.range k).map (fun j => 2 ^ (a + j) * 50)) ++
           (statusLoop fetch upd (a + k) (5 - (a + k))).sleepsMs⟩ := by
  intro k
  induction k with
  | zero =>
    intro a _ _
    simp
  | succ m ih =>
    intro a hk hall
    have hfa : fetch a = none := (hall a (le_refl a) (by omega)).1
    have hua : upd a = some .conflict := (hall a (le_refl a) (by omega)).2
    have h5a : 5 - a = (4 - a) + 1 := by omega
    rw [h5a]
    have hlast : (a == maxRetries - 1) = false := by
      simp only [maxRetries]
      rw [beq_eq_false_iff_ne]
      omega
    simp only [statusLoop, hfa, hua, hlast, Bool.false_eq_true, if_false,
      isConflict, if_true]
    have h4a : 4 - a = 5 - (a + 1) := by omega
    rw [h4a]
    rw [ih (a + 1) (by omega) (fun j hj1 hj2 => hall j (by omega) (by omega))]
    have harg : a + 1 + m = a + (m + 1) := by omega
    rw [harg]
    have hrange : (List.range (m + 1)).map (fun j => 2 ^ (a + j) * 50) =
        (2 ^ a * 50) :: (List.range m).map (fun j => 2 ^ (a + 1 + j) * 50) := by
      rw [List.range_succ_eq_map]
      simp only [List.map_cons, List.map_map, Nat.add_zero]
      congr 1
      apply List.map_congr_left
      intro j _
      have hij : a + (j + 1) = a + 1 + j := by omega
      simp [Function.comp, Nat.succ_eq_add_one, hij]
    rw [hrange]
    simp [Nat.add_assoc]

end StatusLoopLemmas

/-- Claim C6 (confirmed): the safe status writer performs at most five
attempts, each preceded by a fresh fetch; a not-found fetch ends the run
as success without a write; any non-not-found fetch error and any
non-conflict write error is returned immediately; each retried conflict
on attempt k sleeps 50·2^k ms; and five straight conflicts return the
conflict after the fifth attempt with four sleeps. -/
theorem C6_safe_status_writer :
    (∀ fetch upd : Nat → Option GoError,
      (updateOvercommitStatusSafely fetch upd).fetches ≤ 5 ∧
      (updateOvercommitStatusSafely fetch upd).updates ≤
        (updateOvercommitStatusSafely fetch upd).fetches) ∧
    (∀ (fetch upd : Nat → Option GoError) (k : Nat), k ≤ 4 →
      (∀ j, j < k → fetch j = none ∧ upd j = some .conflict) →
      fetch k = some .notFound →
      updateOvercommitStatusSafely fetch upd =
        ⟨.ok, k + 1, k, (List.range k).map (fun j => 2 ^ j * 50)⟩) ∧
    (∀ (fetch upd : Nat → Option GoError) (k : Nat) (e : GoError), k ≤ 4 →
      (∀ j, j < k → fetch j = none ∧ upd j = some .conflict) →
      fetch k = some e → e ≠ .notFound →
      updateOvercommitStatusSafely fetch upd =
        ⟨.err e, k + 1, k, (List.range k).map (fun j => 2 ^ j * 50)⟩) ∧
    (∀ (fetch upd : Nat → Option GoError) (k : Nat) (e : GoError), k ≤ 4 →
      (∀ j, j < k → fetch j = none ∧ upd j = some .conflict) →
      fetch k = none → upd k = some e → isConflict e = false →
      updateOvercommitStatusSafely fetch upd =
        ⟨.err e, k + 1, k + 1, (List.range k).map (fun j => 2 ^ j * 50)⟩) ∧
    (∀ fetch upd : Nat → Option GoError,
      (∀ j, j ≤ 4 → fetch j = none ∧ upd j = some .conflict) →
      updateOvercommitStatusSafely fetch upd =
        ⟨.err .conflict, 5, 5, [50, 100, 200, 400]⟩) := by
  have hrun : ∀ fetch upd : Nat → Option GoError,
      updateOvercommitStatusSafely fetch upd = statusLoop fetch upd 0 (5 - 0) :=
    fun fetch upd => rfl
  have hpre : ∀ (fetch upd : Nat → Option GoError) (k : Nat), k ≤ 4 →
      (∀ j, j < k → fetch j = none ∧ upd j = some .conflict) →
      updateOvercommitStatusSafely fetch upd =
        ⟨(statusLoop fetch upd k (5 - k)).result,
         (statusLoop fetch upd k (5 - k)).fetches + k,
         (statusLoop fetch upd k (5 - k)).updates + k,
         ((List.range k).map (fun j => 2 ^ j * 50)) ++
           (statusLoop fetch upd k (5 - k)).sleepsMs⟩ := by
    intro fetch upd k hk hall
    rw [hrun fetch upd,
      statusLoop_conflict_run fetch upd k 0 (by omega)
        (fun j hj1 hj2 => hall j (by omega))]
    simp
  refine ⟨?_, ?_, ?_, ?_, ?_⟩
  · intro fetch upd
    exact statusLoop_bounds fetch upd 5 0
  · intro fetch upd k hk hall hfk
    rw [hpre fetch upd k hk hall]
    have h5k : 5 - k = (4 - k) + 1 := by omega
    rw [h5k]
    simp only [statusLoop, hfk, ignoreNotFound]
    simp [Nat.add_comm]
  · intro fetch upd k e hk hall hfk hnnf
    rw [hpre fetch upd k hk hall]
    have h5k : 5 - k = (4 - k) + 1 := by omega
    rw [h5k]
    have hign : ignoreNotFound (some e) = some e := by
      cases e <;> simp_all [ignoreNotFound]
    simp only [statusLoop, hfk, hign]
    simp [Nat.add_comm]
  · intro fetch upd k e hk hall hfk huk hc
    rw [hpre fetch upd k hk hall]
    have h5k : 5 - k = (4 - k) + 1 := by omega
    rw [h5k]
    by_cases hk4 : k = 4
    · subst hk4
      simp only [statusLoop, hfk, huk, maxRetries]
      simp [Nat.add_comm]
    · have hbeq : (k == maxRetries - 1) = false := by
        simp only [maxRetries]
        rw [beq_eq_false_iff_ne]
        omega
      simp only [statusLoop, hfk, huk, hbeq, Bool.false_eq_true, if_false, hc]
      simp [Nat.add_comm]
  · intro fetch upd hall
    rw [hpre fetch upd 4 (by omega) (fun j hj => hall j (by omega))]
    have hf4 : fetch 4 = none := (hall 4 (by omega)).1
    have hu4 : upd 4 = some .conflict := (hall 4 (by omega)).2
    simp only [show (5 : Nat) - 4 = 0 + 1 from rfl, statusLoop, hf4, hu4, maxRetries]
    simp
    decide

/-- Claim C6, witness: the not-found scenario of the claim theorem
applied at attempt 0 with concrete fetch and update functions. -/
theorem C6_witness :
    updateOvercommitStatusSafely (fun _ => some .notFound) (fun _ => none) =
      ⟨.ok, 1, 0, []⟩ := by
  simpa using C6_safe_status_writer.2.1 (fun _ => some .notFound) (fun _ => none)
    0 (by omega) (fun j hj => absurd hj (by omega)) rfl

end Overcommit
